import Mathlib

/-!
Verification of the time-series analytics engine of the portfolio dashboard
(`src/App.js`): the input normalizer `parseSheetData` (lines 101-123) and the
series derivation engine `computeSeries` (lines 126-180).

Modelling conventions (shallow embedding):

* JavaScript numbers are modelled by `JSNum`: either `NaN`, `+Infinity`,
  `-Infinity`, or an exact rational.  The arithmetic used by the engine
  (subtraction, multiplication, division, comparisons, truthiness) follows the
  IEEE-754/ECMAScript rules for the special values; finite arithmetic is exact
  rational arithmetic (binary floating-point rounding error is below the
  2-decimal output rounding everywhere the claims look).  The model has a
  single zero (no `-0`): `Number("-0.00")` is identified with `0`.
* `Number(x.toFixed(2))` is modelled by `JSNum.toFixed2`: round half away from
  zero to 2 decimal places (the ECMAScript `toFixed` tie rule), identity on
  `NaN` and the infinities.
* `Date` values are modelled structurally by `CalDate`: an integer year
  (`getFullYear`, negative years included), a 0-based month (`getMonth`), and
  a position (`sub`) that linearises day and time-of-day inside the month.
  The comparator `a.date - b.date` of the source is the lexicographic order
  on these fields.  The ISO date strings attached to chart points by the
  source are presentational and are not modelled; output points keep the
  `CalDate` instead.
* The month-bucket machinery is modelled at the string level, exactly as the
  source computes it: keys are the strings `` `${y}-${MM}` `` (`rowKey`,
  rendered with a decimal integer printer `intStr` matching `${y}`),
  `Object.keys(byMonth).sort()` is a stable sort under the default string
  comparator (code-unit lexicographic order; all key characters are ASCII, so
  code units, code points and bytes agree — `keyLE`), and each key is parsed
  back with `const [y, mm] = k.split("-")` (`splitKey`, via `splitDash`) and
  `Number` on the resulting digit strings (`strToNat`; the reachable
  components are digit strings or `""`, where `Number("") = 0`).  The
  grouping object is keyed by the split's `y` string — for a negative-year
  key such as `"-5-03"` the split yields `y = ""` and `mm = "5"`, which is
  what the source actually does there.
-/

/-- A JavaScript number: `NaN`, an infinity, or a finite (exact rational)
value. -/
inductive JSNum where
  | nan : JSNum
  | posInf : JSNum
  | negInf : JSNum
  | num : ℚ → JSNum
deriving DecidableEq

namespace JSNum

/-- JavaScript `isNaN` / `Number.isNaN` on an already-coerced number. -/
def isNaN : JSNum → Bool
  | nan => true
  | _ => false

/-- `Number.isFinite`: true exactly on finite values. -/
def isFinite : JSNum → Bool
  | num _ => true
  | _ => false

/-- JavaScript truthiness of a number: everything except `NaN` and `0`. -/
def truthy : JSNum → Bool
  | nan => false
  | num q => decide (q ≠ 0)
  | _ => true

/-- JavaScript subtraction `a - b` on numbers. -/
def sub : JSNum → JSNum → JSNum
  | nan, _ => nan
  | _, nan => nan
  | posInf, posInf => nan
  | posInf, negInf => posInf
  | posInf, num _ => posInf
  | negInf, negInf => nan
  | negInf, posInf => negInf
  | negInf, num _ => negInf
  | num _, posInf => negInf
  | num _, negInf => posInf
  | num a, num b => num (a - b)

/-- JavaScript multiplication `a * b` on numbers. -/
def mul : JSNum → JSNum → JSNum
  | nan, _ => nan
  | _, nan => nan
  | posInf, posInf => posInf
  | posInf, negInf => negInf
  | negInf, posInf => negInf
  | negInf, negInf => posInf
  | posInf, num q => if q = 0 then nan else if 0 < q then posInf else negInf
  | num q, posInf => if q = 0 then nan else if 0 < q then posInf else negInf
  | negInf, num q => if q = 0 then nan else if 0 < q then negInf else posInf
  | num q, negInf => if q = 0 then nan else if 0 < q then negInf else posInf
  | num a, num b => num (a * b)

/-- JavaScript division `a / b` on numbers (no `-0` in the model: division of
zero by an infinity, or of a finite value by an infinity, yields `0`). -/
def div : JSNum → JSNum → JSNum
  | nan, _ => nan
  | _, nan => nan
  | posInf, posInf => nan
  | posInf, negInf => nan
  | negInf, posInf => nan
  | negInf, negInf => nan
  | posInf, num q => if 0 ≤ q then posInf else negInf
  | negInf, num q => if 0 ≤ q then negInf else posInf
  | num _, posInf => num 0
  | num _, negInf => num 0
  | num a, num b =>
    if b = 0 then (if a = 0 then nan else if 0 < a then posInf else negInf)
    else num (a / b)

/-- JavaScript strict comparison `a > b` (false whenever `NaN` is involved). -/
def gt : JSNum → JSNum → Bool
  | nan, _ => false
  | _, nan => false
  | posInf, posInf => false
  | posInf, _ => true
  | negInf, _ => false
  | num _, posInf => false
  | num _, negInf => true
  | num a, num b => decide (b < a)

/-- JavaScript comparison `a <= b` (false whenever `NaN` is involved). -/
def le : JSNum → JSNum → Bool
  | nan, _ => false
  | _, nan => false
  | negInf, _ => true
  | posInf, posInf => true
  | posInf, _ => false
  | num _, posInf => true
  | num _, negInf => false
  | num a, num b => decide (a ≤ b)

end JSNum

/-- Rounding to 2 decimal places, half away from zero: the exact-rational
content of ECMAScript `toFixed(2)`. -/
def round2 (q : ℚ) : ℚ :=
  if q < 0 then -(((⌊-q * 100 + 1 / 2⌋ : ℤ) : ℚ) / 100)
  else ((⌊q * 100 + 1 / 2⌋ : ℤ) : ℚ) / 100

namespace JSNum

/-- The source's output rounding `Number(x.toFixed(2))`: rounds finite values
to 2 decimals; `NaN` and the infinities round-trip to themselves
(`(Infinity).toFixed(2) = "Infinity"`, `Number("Infinity") = Infinity`, and
similarly for `NaN`). -/
def toFixed2 : JSNum → JSNum
  | nan => nan
  | posInf => posInf
  | negInf => negInf
  | num q => num (round2 q)

end JSNum

/-- The result of `new Date(r["Date"])` when the date is valid, modelled
structurally: `year` is `getFullYear()` (an integer — JavaScript dates reach
from year -271821 to 275760, so negative years are representable), `month0`
is `getMonth()` (0-based), and `sub` linearises the day and time-of-day
inside the month, so that the lexicographic order on `(year, month0, sub)`
is the timestamp order used by the sort comparator `a.date - b.date`. -/
structure CalDate where
  year : ℤ
  month0 : Fin 12
  sub : ℕ
deriving DecidableEq

/-- Timestamp order on dates: the order computed by the source's comparator
`(a, b) => a.date - b.date`. -/
def CalDate.le (a b : CalDate) : Prop :=
  a.year < b.year ∨ (a.year = b.year ∧
    (a.month0.val < b.month0.val ∨ (a.month0.val = b.month0.val ∧ a.sub ≤ b.sub)))

instance (a b : CalDate) : Decidable (CalDate.le a b) := by
  unfold CalDate.le; infer_instance

/-- A raw sheet row as seen at lines 108-112 of the source, after the two
library coercions have been applied: `dateField` is the result of
`new Date(r["Date"])` (`none` models an Invalid Date, `some d` a valid one) and
`navField` is the result of `Number(r["Nav"])`. -/
structure RawRecord where
  dateField : Option CalDate
  navField : JSNum
deriving DecidableEq

/-- A normalized record `{date, nav}` as produced by `parseSheetData`. -/
structure Row where
  date : CalDate
  nav : JSNum
deriving DecidableEq

/-- The map-then-filter of lines 107-119 fused into one step: a raw record
survives iff its date is a valid `Date` (`r.date instanceof Date` is always
true, `!isNaN(r.date)` is validity) and its nav is a non-`NaN` number
(`typeof r.nav === "number"` is always true after `Number(...)`, the filter
keeps `!isNaN(r.nav)`). -/
def toRow (r : RawRecord) : Option Row :=
  match r.dateField with
  | none => none
  | some d => if r.navField.isNaN then none else some ⟨d, r.navField⟩

/-- The sort comparator of line 120, `(a, b) => a.date - b.date`, as a
Boolean "less or equal" on rows. -/
def rowLE (a b : Row) : Bool := decide (CalDate.le a.date b.date)

/-- `parseSheetData` (lines 101-123): keep the valid rows and stable-sort them
ascending by date (`Array.prototype.sort` is stable; any stable sort computes
the same list, here merge sort). -/
def parseSheetData (raws : List RawRecord) : List Row :=
  (raws.filterMap toRow).mergeSort rowLE

/-- An equity-curve point (the ISO date string of the source is modelled by
the underlying `CalDate`). -/
structure EquityPoint where
  date : CalDate
  value : JSNum
deriving DecidableEq

/-- A drawdown-curve point. -/
structure DrawdownPoint where
  date : CalDate
  drawdown : JSNum
deriving DecidableEq

/-- A monthly-return entry `{month, ret}`: `month` is the zero-padded
2-digit month string, `ret` is `null` (`none`) or a rounded number. -/
structure MonthlyReturn where
  month : String
  ret : Option JSNum
deriving DecidableEq

/-- The decimal digits of a natural number (no leading zeros; `0` renders as
`"0"`), with an explicit fuel argument so that the recursion is structural.
Called with fuel `n + 1` it renders `n` completely. -/
def natStrAux : ℕ → ℕ → List Char
  | 0, _ => []
  | fuel + 1, n =>
    if n < 10 then [Nat.digitChar n]
    else natStrAux fuel (n / 10) ++ [Nat.digitChar (n % 10)]

/-- Decimal rendering of a natural number, as in JavaScript `${n}`. -/
def natStr (n : ℕ) : String := ⟨natStrAux (n + 1) n⟩

/-- Decimal rendering of an integer, as in JavaScript `${i}` (template
interpolation of a number): a leading `-` for negative values. -/
def intStr (i : ℤ) : String := if i < 0 then "-" ++ natStr i.natAbs else natStr i.toNat

/-- `s.padStart(2, "0")`: prepend `"0"`s until the length is at least 2. -/
def padStart2 (s : String) : String :=
  match s.data with
  | [] => "00"
  | [c] => ⟨['0', c]⟩
  | _ => s

/-- `String(m).padStart(2, "0")` for a natural number `m`. -/
def pad2 (m : ℕ) : String := padStart2 (natStr m)

/-- The value of a decimal digit character (`'0'` has code 48). -/
def dval (c : Char) : ℕ := c.toNat - 48

/-- Accumulator pass of decimal parsing. -/
def digitsToNat : List Char → ℕ → ℕ
  | [], acc => acc
  | c :: cs, acc => digitsToNat cs (acc * 10 + dval c)

/-- JavaScript `Number(s)` on the strings reachable as key components: digit
strings parse as decimal, and `Number("") = 0` (the empty string coerces to
0).  General `Number` coercion (signs, blanks, fractions) is not needed:
every component produced by `split("-")` on a bucket key is a digit string or
`""`. -/
def strToNat (s : String) : ℕ := digitsToNat s.data 0

/-- `split("-")` on the character list of a string: JavaScript
`"".split("-")` is `[""]`, and a leading separator yields a leading empty
component (`"-5-03".split("-")` is `["", "5", "03"]`). -/
def splitDash : List Char → List (List Char)
  | [] => [[]]
  | c :: cs =>
    if c = '-' then [] :: splitDash cs
    else
      match splitDash cs with
      | [] => [[c]]
      | p :: ps => (c :: p) :: ps

/-- The destructuring `const [y, mm] = k.split("-")` of line 162: the first
two components of the split.  Every bucket key contains a `"-"`, so the first
branch always applies; the remaining branches only make the function total. -/
def splitKey (k : String) : String × String :=
  match splitDash k.data with
  | y :: mm :: _ => (⟨y⟩, ⟨mm⟩)
  | [y] => (⟨y⟩, "")
  | [] => ("", "")

/-- The month-bucket key of a record (lines 154-156):
`` `${y}-${String(m).padStart(2, "0")}` ``. -/
def rowKey (r : Row) : String :=
  intStr r.date.year ++ "-" ++ pad2 (r.date.month0.val + 1)

/-- Assignment `byMonth[key] = nav` on the bucket object, modelled as an
association list in insertion order: an existing key keeps its position and
gets the new value, a new key is appended. -/
def upsertBM : List (String × JSNum) → String → JSNum → List (String × JSNum)
  | [], k, v => [(k, v)]
  | (k', v') :: t, k, v =>
    if k' = k then (k', v) :: t else (k', v') :: upsertBM t k v

/-- The bucket object `byMonth` built by the `rows.forEach` of lines 152-158. -/
def byMonthOf (rows : List Row) : List (String × JSNum) :=
  rows.foldl (fun bm r => upsertBM bm (rowKey r) r.nav) []

/-- Property lookup `byMonth[k]`: `none` models `undefined`. -/
def lookupBM : List (String × JSNum) → String → Option JSNum
  | [], _ => none
  | (k', v) :: t, k => if k' = k then some v else lookupBM t k

/-- Code-unit lexicographic comparison of character lists: the order used by
the default `Array.prototype.sort()` comparator on strings.  All bucket-key
characters are ASCII, where UTF-16 code units and code points agree. -/
def charListLE : List Char → List Char → Bool
  | [], _ => true
  | _ :: _, [] => false
  | a :: as, b :: bs =>
    if a.toNat < b.toNat then true
    else if b.toNat < a.toNat then false
    else charListLE as bs

/-- The order in which `Object.keys(byMonth).sort()` enumerates the month
keys. -/
def keyLE (a b : String) : Bool := charListLE a.data b.data

/-- The previous-key computation of lines 164-168, exactly as the source
performs it on the split components: `mmNum = Number(mm)`; if `mmNum === 1`
the key is `` `${Number(y) - 1}-12` ``, else
`` `${y}-${String(mmNum - 1).padStart(2, "0")}` ``.  (`mmNum - 1` is natural
subtraction; `mmNum = 0` would need a key component `"0"` or `""`, which no
record produces.) -/
def prevKeyStr (k : String) : String :=
  let y := (splitKey k).1
  let mm := (splitKey k).2
  let mmNum := strToNat mm
  if mmNum = 1 then intStr ((strToNat y : ℤ) - 1) ++ "-12"
  else y ++ "-" ++ padStart2 (natStr (mmNum - 1))

/-- The exact immediately-preceding calendar month key of the pair `(y, m)`:
`"{y-1}-12"` when `m = 1`, else `"{y}-{m-1, zero-padded}"`.  This is what the
spec prescribes; `prevKeyStr` is what the source computes. -/
def calPrevKey (y : ℤ) (m : ℕ) : String :=
  if m = 1 then intStr (y - 1) ++ "-12" else intStr y ++ "-" ++ pad2 (m - 1)

/-- The `ret` computed at lines 169-175 for the month key `k`: look up the
key the source derives for the previous month; if it is present with a truthy
positive value, return `(val / prevVal - 1) * 100` rounded at the push, else
`null`. -/
def retFor (bm : List (String × JSNum)) (k : String) : Option JSNum :=
  match lookupBM bm (prevKeyStr k) with
  | none => none
  | some pv =>
    if pv.truthy && pv.gt (JSNum.num 0) then
      some (((((lookupBM bm k).getD JSNum.nan).div pv).sub (JSNum.num 1)).mul
        (JSNum.num 100)).toFixed2
    else none

/-- The `{month, ret}` object pushed for the key `k` (lines 173-176): the
month field is the `mm` component of the split. -/
def entryFor (bm : List (String × JSNum)) (k : String) : MonthlyReturn :=
  ⟨(splitKey k).2, retFor bm k⟩

/-- `monthReturnsByYear[y].push(e)` with on-demand creation of the year's
array (lines 172-176); the grouping object is keyed by the `y` string
component of the split. -/
def pushYear : List (String × List MonthlyReturn) → String → MonthlyReturn →
    List (String × List MonthlyReturn)
  | [], y, e => [(y, [e])]
  | (y', l) :: t, y, e =>
    if y' = y then (y', l ++ [e]) :: t else (y', l) :: pushYear t y e

/-- Lookup `monthReturnsByYear[y]`. -/
def lookupYear : List (String × List MonthlyReturn) → String →
    Option (List MonthlyReturn)
  | [], _ => none
  | (y', l) :: t, y => if y' = y then some l else lookupYear t y

/-- The monthly-return matrix builder (lines 151-177): bucket by month key
string, enumerate the distinct keys in sorted order, compute each key's
return from the key the source derives for the previous month, and group the
entries by the split's year string. -/
def buildMonthlyMatrix (rows : List Row) : List (String × List MonthlyReturn) :=
  let bm := byMonthOf rows
  ((bm.map Prod.fst).mergeSort keyLE).foldl
    (fun g k => pushYear g (splitKey k).1 (entryFor bm k)) []

/-- The equity curve (lines 130-138): rebase every nav on the first row's nav,
times 100, rounded to 2 decimals at the push. -/
def buildEquity (rows : List Row) : List EquityPoint :=
  match rows with
  | [] => []
  | r0 :: rest =>
    (r0 :: rest).map fun r =>
      ⟨r.date, ((r.nav.div r0.nav).mul (JSNum.num 100)).toFixed2⟩

/-- One pass of the drawdown loop (lines 142-149) with the running peak as
accumulator: update the peak on strict `>`, then emit
`(value - peak) / peak * 100` rounded to 2 decimals. -/
def ddGo (peak : JSNum) : List EquityPoint → List DrawdownPoint
  | [] => []
  | pt :: rest =>
    let peak' := if pt.value.gt peak then pt.value else peak
    ⟨pt.date, (((pt.value.sub peak').div peak').mul (JSNum.num 100)).toFixed2⟩ ::
      ddGo peak' rest

/-- The drawdown curve (lines 140-149): running peak initialised to
`-Infinity`. -/
def buildDrawdown (equity : List EquityPoint) : List DrawdownPoint :=
  ddGo JSNum.negInf equity

/-- The three derived series returned by `computeSeries`. -/
structure SeriesOut where
  equity : List EquityPoint
  drawdown : List DrawdownPoint
  monthReturnsByYear : List (String × List MonthlyReturn)
deriving DecidableEq

/-- `computeSeries` (lines 126-180): empty input short-circuits to three empty
series, otherwise derive the equity curve, the drawdown curve from it, and the
monthly-return matrix. -/
def computeSeries (rows : List Row) : SeriesOut :=
  match rows with
  | [] => ⟨[], [], []⟩
  | r0 :: rest =>
    ⟨buildEquity (r0 :: rest), buildDrawdown (buildEquity (r0 :: rest)),
      buildMonthlyMatrix (r0 :: rest)⟩

/-! ### Concrete inputs used by witnesses and counterexamples -/

/-- A fixed valid calendar date (2023-01-01). -/
def d0 : CalDate := ⟨2023, 0, 1⟩

/-- The spec's worked scenario: 2023-01-31 nav 100, 2023-02-28 nav 110,
2023-03-31 nav 99. -/
def specRows : List Row :=
  [⟨⟨2023, 0, 31⟩, JSNum.num 100⟩, ⟨⟨2023, 1, 28⟩, JSNum.num 110⟩,
   ⟨⟨2023, 2, 31⟩, JSNum.num 99⟩]

/-- Rows whose equity values are 100, 250, 249.99: the third point sits just
below the peak, inside the 2-decimal rounding tolerance. -/
def nearPeakRows : List Row :=
  [⟨⟨2023, 0, 1⟩, JSNum.num 1⟩, ⟨⟨2023, 1, 1⟩, JSNum.num (5 / 2)⟩,
   ⟨⟨2023, 2, 1⟩, JSNum.num (24999 / 10000)⟩]

/-- A single record whose nav is `0` (the base of the equity curve). -/
def zeroNavRows : List Row := [⟨d0, JSNum.num 0⟩]

/-- A 2023-11 record and a 2024-01 record with no 2023-12 record in between. -/
def gapRows : List Row :=
  [⟨⟨2023, 10, 1⟩, JSNum.num 100⟩, ⟨⟨2024, 0, 1⟩, JSNum.num 105⟩]

/-- Two records in the same month 2023-05, navs 100 then 105. -/
def dupRows : List Row :=
  [⟨⟨2023, 4, 1⟩, JSNum.num 100⟩, ⟨⟨2023, 4, 31⟩, JSNum.num 105⟩]

/-- Two records in calendar months `-5-02` and `-5-03` (February and March of
year -5, reachable from a raw `Date` cell such as `"-000005-02-01"`), with
positive navs. -/
def negYearRows : List Row :=
  [⟨⟨-5, 1, 1⟩, JSNum.num 100⟩, ⟨⟨-5, 2, 1⟩, JSNum.num 105⟩]

/-- A raw record whose nav coerces to `+Infinity` (e.g. `Nav: "Infinity"`). -/
def infRaws : List RawRecord := [⟨some d0, JSNum.posInf⟩]

/-- A raw record whose nav coerces to `-5`. -/
def negRaws : List RawRecord := [⟨some d0, JSNum.num (-5)⟩]

/-- A raw record whose nav coerces to `NaN` (e.g. `Nav: "abc"`). -/
def nanRaws : List RawRecord := [⟨some d0, JSNum.nan⟩]

/-- Two raw records with the same valid date and distinct navs. -/
def sameDateRaws : List RawRecord :=
  [⟨some d0, JSNum.num 1⟩, ⟨some d0, JSNum.num 2⟩]

/-! ### Basic lemmas about the JS arithmetic model -/

theorem JSNum.div_num_num (a b : ℚ) (hb : b ≠ 0) :
    (JSNum.num a).div (JSNum.num b) = JSNum.num (a / b) := by
  simp [JSNum.div, hb]

theorem JSNum.mul_num_num (a b : ℚ) :
    (JSNum.num a).mul (JSNum.num b) = JSNum.num (a * b) := rfl

theorem JSNum.sub_num_num (a b : ℚ) :
    (JSNum.num a).sub (JSNum.num b) = JSNum.num (a - b) := rfl

theorem JSNum.toFixed2_num (q : ℚ) :
    (JSNum.num q).toFixed2 = JSNum.num (round2 q) := rfl

theorem JSNum.gt_num_num (a b : ℚ) :
    (JSNum.num a).gt (JSNum.num b) = decide (b < a) := rfl

theorem JSNum.le_num_num (a b : ℚ) :
    (JSNum.num a).le (JSNum.num b) = decide (a ≤ b) := rfl

theorem JSNum.isFinite_iff (x : JSNum) : x.isFinite = true ↔ ∃ q, x = JSNum.num q := by
  cases x <;> simp [JSNum.isFinite]

theorem round2_zero : round2 0 = 0 := by norm_num [round2]

theorem round2_of_nonpos (q : ℚ) (h : q ≤ 0) : round2 q ≤ 0 := by
  unfold round2
  split
  · rename_i hneg
    have h1 : (0 : ℤ) ≤ ⌊-q * 100 + 1 / 2⌋ := by
      apply Int.le_floor.mpr
      push_cast
      nlinarith
    have h2 : (0 : ℚ) ≤ ((⌊-q * 100 + 1 / 2⌋ : ℤ) : ℚ) / 100 := by positivity
    linarith
  · rename_i hge
    push_neg at hge
    have hq0 : q = 0 := le_antisymm h hge
    subst hq0
    norm_num

theorem round2_natCast (n : ℕ) : round2 (n : ℚ) = n := by
  unfold round2
  rw [if_neg (not_lt.mpr (by positivity))]
  have : ⌊(n : ℚ) * 100 + 1 / 2⌋ = (n : ℤ) * 100 := by
    rw [Int.floor_eq_iff]
    constructor
    · push_cast; nlinarith
    · push_cast; nlinarith
  rw [this]
  push_cast
  ring

/-! ### The normalizer: validity characterisation, ordering, stability -/

theorem toRow_eq_some (r : RawRecord) (rec : Row) :
    toRow r = some rec ↔
      r.dateField = some rec.date ∧ r.navField = rec.nav ∧ rec.nav.isNaN = false := by
  obtain ⟨rd, rn⟩ := rec
  obtain ⟨df, nf⟩ := r
  cases df with
  | none => simp [toRow]
  | some d =>
    cases hn : nf.isNaN with
    | true =>
      simp only [toRow, hn, if_true]
      constructor
      · intro h; cases h
      · rintro ⟨h1, rfl, h3⟩
        rw [hn] at h3
        cases h3
    | false =>
      simp only [toRow, hn, Bool.false_eq_true, if_false, Option.some.injEq,
        Row.mk.injEq]
      constructor
      · rintro ⟨rfl, rfl⟩
        exact ⟨rfl, rfl, hn⟩
      · rintro ⟨h1, rfl, -⟩
        exact ⟨h1, rfl⟩

theorem rowLE_trans (a b c : Row) (hab : rowLE a b) (hbc : rowLE b c) : rowLE a c := by
  simp only [rowLE, decide_eq_true_eq] at *
  unfold CalDate.le at *
  omega

theorem rowLE_total (a b : Row) : rowLE a b || rowLE b a := by
  simp only [rowLE, Bool.or_eq_true, decide_eq_true_eq]
  unfold CalDate.le
  omega

theorem CalDate.le_of_eq (a b : CalDate) (h : a = b) : CalDate.le a b := by
  subst h
  unfold CalDate.le
  omega

/-- C5: for every sequence of raw records, the normalizer's output is
non-decreasing by date, and the sort is stable: two valid records with equal
dates keep their relative input order (expressed as preservation of
2-element sublists of the valid-filtered input). -/
theorem normalizer_sorted_and_stable (raws : List RawRecord) :
    (parseSheetData raws).Pairwise (fun a b => CalDate.le a.date b.date) ∧
    ∀ a b : Row, a.date = b.date → List.Sublist [a, b] (raws.filterMap toRow) →
      List.Sublist [a, b] (parseSheetData raws) := by
  constructor
  · have h := List.sorted_mergeSort rowLE_trans rowLE_total
      (raws.filterMap toRow)
    exact h.imp fun hab => by
      simpa only [rowLE, decide_eq_true_eq] using hab
  · intro a b hdate hsub
    apply List.sublist_mergeSort rowLE_trans rowLE_total _ hsub
    simp only [List.pairwise_cons, List.mem_singleton, forall_eq]
    simp only [rowLE, decide_eq_true_eq]
    exact ⟨CalDate.le_of_eq _ _ hdate, fun a' h => absurd h (List.not_mem_nil a'),
      List.Pairwise.nil⟩

/-- C5 witness: two records sharing the date `d0` keep their input order in the
normalized output. -/
theorem normalizer_sorted_and_stable_w :
    List.Sublist [(⟨d0, JSNum.num 1⟩ : Row), ⟨d0, JSNum.num 2⟩]
      (parseSheetData sameDateRaws) := by
  have hsub : List.Sublist [(⟨d0, JSNum.num 1⟩ : Row), ⟨d0, JSNum.num 2⟩]
      (sameDateRaws.filterMap toRow) := by
    have h : sameDateRaws.filterMap toRow =
        [(⟨d0, JSNum.num 1⟩ : Row), ⟨d0, JSNum.num 2⟩] := by
      simp [sameDateRaws, toRow, JSNum.isNaN]
    rw [h]
  exact (normalizer_sorted_and_stable sameDateRaws).2 _ _ rfl hsub

/-- C3 (amended): a record appears in the normalizer's output iff some raw
record's date parses to a valid calendar date and its nav coerces to a
non-`NaN` number matching the record; coercion to a finite number is NOT
required (`!isNaN` lets the infinities through), and failing records are
silently dropped. -/
theorem normalizer_membership (raws : List RawRecord) (rec : Row) :
    rec ∈ parseSheetData raws ↔
      ∃ r ∈ raws, r.dateField = some rec.date ∧ r.navField = rec.nav ∧
        rec.nav.isNaN = false := by
  unfold parseSheetData
  rw [List.mem_mergeSort, List.mem_filterMap]
  constructor
  · rintro ⟨r, hr, hTo⟩
    exact ⟨r, hr, (toRow_eq_some r rec).mp hTo⟩
  · rintro ⟨r, hr, h⟩
    exact ⟨r, hr, (toRow_eq_some r rec).mpr h⟩

/-- C3 counterexample: a raw record whose nav coerces to `+Infinity` (not a
finite number) passes the `!isNaN` filter and appears in the output, refuting
the claim that appearance requires a finite coercion. -/
theorem normalizer_membership_cex :
    parseSheetData infRaws = [⟨d0, JSNum.posInf⟩] ∧
      JSNum.posInf.isFinite = false := by
  constructor
  · simp [parseSheetData, infRaws, toRow, JSNum.isNaN, List.mergeSort]
  · rfl

/-- C8 (amended): every record constructed by the normalizer has a non-`NaN`
nav; positivity and finiteness are NOT guaranteed (the filter only rejects
`NaN`). -/
theorem normalizer_nav_not_nan (raws : List RawRecord) (rec : Row)
    (h : rec ∈ parseSheetData raws) : rec.nav.isNaN = false := by
  unfold parseSheetData at h
  rw [List.mem_mergeSort, List.mem_filterMap] at h
  obtain ⟨r, -, hTo⟩ := h
  exact ((toRow_eq_some r rec).mp hTo).2.2

/-- C8 witness: the record with nav `-5` is in the output of the normalizer on
`negRaws`, and its nav is not `NaN`. -/
theorem normalizer_nav_not_nan_w :
    ((⟨d0, JSNum.num (-5)⟩ : Row) ∈ parseSheetData negRaws) ∧
      (Row.mk d0 (JSNum.num (-5))).nav.isNaN = false := by
  have hm : (⟨d0, JSNum.num (-5)⟩ : Row) ∈ parseSheetData negRaws := by
    simp [parseSheetData, negRaws, toRow, JSNum.isNaN, List.mergeSort]
  exact ⟨hm, normalizer_nav_not_nan negRaws _ hm⟩

/-- C8 counterexample: the normalizer keeps a record whose nav is `-5`, which
is not a positive number, refuting the claimed positivity invariant. -/
theorem normalizer_nav_not_nan_cex :
    parseSheetData negRaws = [⟨d0, JSNum.num (-5)⟩] ∧
      (JSNum.num (-5)).gt (JSNum.num 0) = false := by
  constructor
  · simp [parseSheetData, negRaws, toRow, JSNum.isNaN, List.mergeSort]
  · norm_num [JSNum.gt]

/-- C9: when every raw record is invalid (unparsable date or `NaN` nav), all
three derived series are empty and no error is raised (the empty input case is
the vacuous instance). -/
theorem degenerate_input_empty_outputs (raws : List RawRecord)
    (h : ∀ r ∈ raws, r.dateField = none ∨ r.navField.isNaN = true) :
    computeSeries (parseSheetData raws) = ⟨[], [], []⟩ := by
  have hnil : raws.filterMap toRow = [] := by
    rw [List.filterMap_eq_nil_iff]
    intro r hr
    rcases h r hr with hd | hn
    · simp [toRow, hd]
    · unfold toRow
      cases hdf : r.dateField with
      | none => rfl
      | some d => simp [hn]
  unfold parseSheetData
  rw [hnil]
  simp [List.mergeSort, computeSeries]

/-- C9 witness: an input whose nav fields all coerce to `NaN` (e.g.
`Nav: "abc"`) yields three empty series. -/
theorem degenerate_input_empty_outputs_w :
    computeSeries (parseSheetData nanRaws) = ⟨[], [], []⟩ :=
  degenerate_input_empty_outputs nanRaws (by decide)

/-! ### Equity curve and drawdown lemmas -/

theorem computeSeries_nil : computeSeries [] = ⟨[], [], []⟩ := rfl

theorem computeSeries_cons (r0 : Row) (rest : List Row) :
    computeSeries (r0 :: rest) =
      ⟨buildEquity (r0 :: rest), buildDrawdown (buildEquity (r0 :: rest)),
        buildMonthlyMatrix (r0 :: rest)⟩ := rfl

theorem buildEquity_eq_map (r0 : Row) (rest : List Row) :
    buildEquity (r0 :: rest) = (r0 :: rest).map fun r =>
      ⟨r.date, ((r.nav.div r0.nav).mul (JSNum.num 100)).toFixed2⟩ := rfl

theorem equity_head_value (r0 : Row) (b : ℚ) (hb : r0.nav = JSNum.num b)
    (hb0 : b ≠ 0) :
    ((r0.nav.div r0.nav).mul (JSNum.num 100)).toFixed2 = JSNum.num 100 := by
  rw [hb, JSNum.div_num_num b b hb0, div_self hb0, JSNum.mul_num_num,
    JSNum.toFixed2_num]
  have h := round2_natCast 100
  norm_num at h ⊢
  exact h

/-- C4: for every series whose first record has a positive (finite) nav, the
first equity point's value is exactly 100. -/
theorem equity_first_value_100 (rows : List Row) (q : ℚ)
    (hq : rows.head?.map Row.nav = some (JSNum.num q)) (hpos : 0 < q) :
    (computeSeries rows).equity.head?.map EquityPoint.value =
      some (JSNum.num 100) := by
  cases rows with
  | nil => simp at hq
  | cons r0 rest =>
    have hnav : r0.nav = JSNum.num q := by simpa using hq
    rw [computeSeries_cons]
    show ((buildEquity (r0 :: rest)).head?).map EquityPoint.value = _
    rw [buildEquity_eq_map, List.map_cons]
    simp only [List.head?_cons, Option.map_some']
    rw [equity_head_value r0 q hnav (ne_of_gt hpos)]

/-- C4 witness: the spec scenario starts at nav 100 > 0, and its first equity
value is 100. -/
theorem equity_first_value_100_w :
    (computeSeries specRows).equity.head?.map EquityPoint.value =
      some (JSNum.num 100) :=
  equity_first_value_100 specRows 100 (by simp [specRows]) (by norm_num)

theorem ddGo_negInf_cons (d : CalDate) (v : ℚ) (es : List EquityPoint) :
    ddGo JSNum.negInf (⟨d, JSNum.num v⟩ :: es) =
      ⟨d, ((((JSNum.num v).sub (JSNum.num v)).div (JSNum.num v)).mul
        (JSNum.num 100)).toFixed2⟩ :: ddGo (JSNum.num v) es := rfl

theorem dd_point_nonpos (v p : ℚ) (hp : 0 < p) (hvp : v ≤ p) :
    JSNum.le ((((JSNum.num v).sub (JSNum.num p)).div (JSNum.num p)).mul
      (JSNum.num 100)).toFixed2 (JSNum.num 0) = true := by
  rw [JSNum.sub_num_num, JSNum.div_num_num _ _ (ne_of_gt hp), JSNum.mul_num_num,
    JSNum.toFixed2_num, JSNum.le_num_num, decide_eq_true_eq]
  apply round2_of_nonpos
  have h1 : v - p ≤ 0 := by linarith
  have h2 : (v - p) / p ≤ 0 := div_nonpos_of_nonpos_of_nonneg h1 (le_of_lt hp)
  nlinarith

theorem ddGo_nonpos : ∀ (pts : List EquityPoint) (p : ℚ), 0 < p →
    (∀ pt ∈ pts, ∃ v, pt.value = JSNum.num v) →
    ∀ dp ∈ ddGo (JSNum.num p) pts, JSNum.le dp.drawdown (JSNum.num 0) = true
  | [], _, _, _ => by intro dp hdp; cases hdp
  | pt :: rest, p, hp, hfin => by
    obtain ⟨v, hv⟩ := hfin pt (by simp)
    intro dp hdp
    simp only [ddGo, hv, JSNum.gt_num_num] at hdp
    by_cases hpv : p < v
    · rw [if_pos (by simpa using hpv)] at hdp
      rcases List.mem_cons.mp hdp with heq | hdp'
      · subst heq
        exact dd_point_nonpos v v (hp.trans hpv) le_rfl
      · exact ddGo_nonpos rest v (hp.trans hpv)
          (fun x hx => hfin x (List.mem_cons_of_mem _ hx)) dp hdp'
    · rw [if_neg (by simpa using hpv)] at hdp
      rcases List.mem_cons.mp hdp with heq | hdp'
      · subst heq
        exact dd_point_nonpos v p hp (not_lt.mp hpv)
      · exact ddGo_nonpos rest p hp
          (fun x hx => hfin x (List.mem_cons_of_mem _ hx)) dp hdp'

/-- C2 (amended): for every series whose navs are all finite and whose first
nav is nonzero, every drawdown point's value satisfies `drawdown ≤ 0`. -/
theorem drawdown_nonpositive (rows : List Row)
    (hfin : ∀ r ∈ rows, r.nav.isFinite = true)
    (hbase : rows.head?.map Row.nav ≠ some (JSNum.num 0)) :
    ∀ dp ∈ (computeSeries rows).drawdown,
      JSNum.le dp.drawdown (JSNum.num 0) = true := by
  cases rows with
  | nil => intro dp hdp; rw [computeSeries_nil] at hdp; cases hdp
  | cons r0 rest =>
    obtain ⟨b, hb⟩ := (JSNum.isFinite_iff r0.nav).mp (hfin r0 (by simp))
    have hb0 : b ≠ 0 := by
      intro h
      subst h
      exact hbase (by simp [hb])
    have h100 : ((r0.nav.div r0.nav).mul (JSNum.num 100)).toFixed2 =
        JSNum.num 100 := equity_head_value r0 b hb hb0
    have hfin' : ∀ pt ∈ (rest.map fun r =>
        (⟨r.date, ((r.nav.div r0.nav).mul (JSNum.num 100)).toFixed2⟩ : EquityPoint)),
        ∃ w, pt.value = JSNum.num w := by
      intro pt hpt
      rw [List.mem_map] at hpt
      obtain ⟨r, hr, rfl⟩ := hpt
      obtain ⟨a, ha⟩ := (JSNum.isFinite_iff r.nav).mp
        (hfin r (List.mem_cons_of_mem _ hr))
      exact ⟨round2 (a / b * 100), by
        rw [ha, hb, JSNum.div_num_num _ _ hb0, JSNum.mul_num_num,
          JSNum.toFixed2_num]⟩
    intro dp hdp
    rw [computeSeries_cons] at hdp
    show JSNum.le dp.drawdown (JSNum.num 0) = true
    rw [buildEquity_eq_map, List.map_cons] at hdp
    unfold buildDrawdown at hdp
    rw [h100, ddGo_negInf_cons] at hdp
    rcases List.mem_cons.mp hdp with heq | hdp'
    · subst heq
      exact dd_point_nonpos 100 100 (by norm_num) le_rfl
    · exact ddGo_nonpos _ 100 (by norm_num) hfin' dp hdp'

/-- C2 witness: the spec scenario (navs 100, 110, 99) has finite navs, nonzero
base, and all its drawdowns are ≤ 0. -/
theorem drawdown_nonpositive_w :
    (∀ r ∈ specRows, r.nav.isFinite = true) ∧
    ∀ dp ∈ (computeSeries specRows).drawdown,
      JSNum.le dp.drawdown (JSNum.num 0) = true :=
  ⟨by decide, drawdown_nonpositive specRows (by decide) (by norm_num [specRows])⟩

/-- C2 counterexample: a series whose single record has nav 0 (which the
normalizer admits) produces `0/0 = NaN` as equity value and `NaN` as drawdown,
and `NaN ≤ 0` is false. -/
theorem drawdown_nonpositive_cex :
    (computeSeries zeroNavRows).drawdown = [⟨d0, JSNum.nan⟩] ∧
      JSNum.le JSNum.nan (JSNum.num 0) = false := by
  constructor
  · norm_num [zeroNavRows, computeSeries, buildEquity, buildDrawdown, ddGo,
      JSNum.div, JSNum.mul, JSNum.sub, JSNum.gt, JSNum.toFixed2]
  · rfl

theorem dd_point_self_zero (v : ℚ) (hv : v ≠ 0) :
    ((((JSNum.num v).sub (JSNum.num v)).div (JSNum.num v)).mul
      (JSNum.num 100)).toFixed2 = JSNum.num 0 := by
  rw [JSNum.sub_num_num, sub_self, JSNum.div_num_num _ _ hv, zero_div,
    JSNum.mul_num_num, zero_mul, JSNum.toFixed2_num, round2_zero]

theorem ddGo_cons_gt (p v : ℚ) (d : CalDate) (es : List EquityPoint)
    (h : p < v) :
    ddGo (JSNum.num p) (⟨d, JSNum.num v⟩ :: es) =
      ⟨d, ((((JSNum.num v).sub (JSNum.num v)).div (JSNum.num v)).mul
        (JSNum.num 100)).toFixed2⟩ :: ddGo (JSNum.num v) es := by
  simp only [ddGo, JSNum.gt_num_num, decide_eq_true_eq, if_pos h]

theorem ddGo_cons_le (p v : ℚ) (d : CalDate) (es : List EquityPoint)
    (h : ¬ p < v) :
    ddGo (JSNum.num p) (⟨d, JSNum.num v⟩ :: es) =
      ⟨d, ((((JSNum.num v).sub (JSNum.num p)).div (JSNum.num p)).mul
        (JSNum.num 100)).toFixed2⟩ :: ddGo (JSNum.num p) es := by
  simp only [ddGo, JSNum.gt_num_num, decide_eq_true_eq, if_neg h]

theorem ddGo_length : ∀ (pk : JSNum) (pts : List EquityPoint),
    (ddGo pk pts).length = pts.length
  | _, [] => rfl
  | pk, pt :: rest => by
    simp only [ddGo, List.length_cons]
    rw [ddGo_length]

theorem ddGo_zero_at_peak : ∀ (pts : List EquityPoint) (p : ℚ), 0 < p →
    (∀ pt ∈ pts, ∃ w, pt.value = JSNum.num w) →
    ∀ (i : ℕ) (hi : i < pts.length) (v : ℚ),
      (pts.get ⟨i, hi⟩).value = JSNum.num v →
      (∀ e ∈ pts.take i, JSNum.gt (JSNum.num v) e.value = true) →
      p < v →
      ∀ (hd : i < (ddGo (JSNum.num p) pts).length),
        ((ddGo (JSNum.num p) pts).get ⟨i, hd⟩).drawdown = JSNum.num 0
  | [], _, _, _, i, hi, _, _, _, _, _ => absurd hi (by simp)
  | pt :: rest, p, hp, hfin, 0, hi, v, hv, hgt, hpv, hd => by
    obtain ⟨w, hw⟩ := hfin pt (by simp)
    obtain ⟨dte, pv⟩ := pt
    simp only at hw
    subst hw
    have hv0 : w = v := by
      have := hv
      simp only [List.get] at this
      exact JSNum.num.inj this
    subst hv0
    rw [List.get_of_eq (ddGo_cons_gt p w dte rest hpv) ⟨0, hd⟩]
    simp only [List.get]
    exact dd_point_self_zero w (ne_of_gt (hp.trans hpv))
  | pt :: rest, p, hp, hfin, (i+1), hi, v, hv, hgt, hpv, hd => by
    obtain ⟨w, hw⟩ := hfin pt (by simp)
    obtain ⟨dte, pv⟩ := pt
    simp only at hw
    subst hw
    have hi' : i < rest.length := by simpa using hi
    have hv' : (rest.get ⟨i, hi'⟩).value = JSNum.num v := by
      simpa [List.get] using hv
    have hgt0 : JSNum.gt (JSNum.num v) (JSNum.num w) = true := by
      have := hgt ⟨dte, JSNum.num w⟩ (by simp [List.take_succ_cons])
      simpa using this
    have hwv : w < v := by simpa [JSNum.gt_num_num] using hgt0
    have hgt' : ∀ e ∈ rest.take i, JSNum.gt (JSNum.num v) e.value = true := by
      intro e he
      exact hgt e (by simp [List.take_succ_cons, he])
    have hfin' : ∀ x ∈ rest, ∃ w, x.value = JSNum.num w :=
      fun x hx => hfin x (List.mem_cons_of_mem _ hx)
    by_cases hpw : p < w
    · rw [List.get_of_eq (ddGo_cons_gt p w dte rest hpw) ⟨i + 1, hd⟩]
      have hd' : i < (ddGo (JSNum.num w) rest).length := by
        rw [ddGo_length]
        exact hi'
      have hrec := ddGo_zero_at_peak rest w (hp.trans hpw) hfin' i hi' v hv'
        hgt' hwv hd'
      rw [List.get_cons_succ]
      exact hrec
    · rw [List.get_of_eq (ddGo_cons_le p w dte rest hpw) ⟨i + 1, hd⟩]
      have hd' : i < (ddGo (JSNum.num p) rest).length := by
        rw [ddGo_length]
        exact hi'
      have hrec := ddGo_zero_at_peak rest p hp hfin' i hi' v hv' hgt' hpv hd'
      rw [List.get_cons_succ]
      exact hrec

/-- C7 (amended): under finite navs and a nonzero first nav, the drawdown is 0
at every new-peak point, i.e. at every index whose equity value strictly
exceeds all earlier equity values (the first point included); the running peak
updates only on strict `>`.  The converse ("only at new-peak points") is
refuted by the counterexample. -/
theorem drawdown_zero_at_new_peak (rows : List Row)
    (hfin : ∀ r ∈ rows, r.nav.isFinite = true)
    (hbase : rows.head?.map Row.nav ≠ some (JSNum.num 0))
    (i : ℕ) (hi : i < (computeSeries rows).equity.length) (v : ℚ)
    (hv : ((computeSeries rows).equity.get ⟨i, hi⟩).value = JSNum.num v)
    (hgt : ∀ e ∈ (computeSeries rows).equity.take i,
      JSNum.gt (JSNum.num v) e.value = true)
    (hd : i < (computeSeries rows).drawdown.length) :
    ((computeSeries rows).drawdown.get ⟨i, hd⟩).drawdown = JSNum.num 0 := by
  cases rows with
  | nil =>
    rw [computeSeries_nil] at hi
    cases hi
  | cons r0 rest =>
    obtain ⟨b, hb⟩ := (JSNum.isFinite_iff r0.nav).mp (hfin r0 (by simp))
    have hb0 : b ≠ 0 := by
      intro h
      subst h
      exact hbase (by simp [hb])
    have h100 : ((r0.nav.div r0.nav).mul (JSNum.num 100)).toFixed2 =
        JSNum.num 100 := equity_head_value r0 b hb hb0
    have hfin' : ∀ pt ∈ (rest.map fun r =>
        (⟨r.date, ((r.nav.div r0.nav).mul (JSNum.num 100)).toFixed2⟩ : EquityPoint)),
        ∃ w, pt.value = JSNum.num w := by
      intro pt hpt
      rw [List.mem_map] at hpt
      obtain ⟨r, hr, rfl⟩ := hpt
      obtain ⟨a, ha⟩ := (JSNum.isFinite_iff r.nav).mp
        (hfin r (List.mem_cons_of_mem _ hr))
      exact ⟨round2 (a / b * 100), by
        rw [ha, hb, JSNum.div_num_num _ _ hb0, JSNum.mul_num_num,
          JSNum.toFixed2_num]⟩
    have hEq : buildEquity (r0 :: rest) =
        (⟨r0.date, JSNum.num 100⟩ : EquityPoint) :: (rest.map fun r =>
          (⟨r.date, ((r.nav.div r0.nav).mul (JSNum.num 100)).toFixed2⟩ :
            EquityPoint)) := by
      rw [buildEquity_eq_map, List.map_cons, h100]
    have hi2 : i < (buildEquity (r0 :: rest)).length := hi
    have hv2 : ((buildEquity (r0 :: rest)).get ⟨i, hi2⟩).value = JSNum.num v := hv
    have hgt2 : ∀ e ∈ (buildEquity (r0 :: rest)).take i,
        JSNum.gt (JSNum.num v) e.value = true := hgt
    have hd2 : i < (buildDrawdown (buildEquity (r0 :: rest))).length := hd
    show ((buildDrawdown (buildEquity (r0 :: rest))).get ⟨i, hd2⟩).drawdown =
      JSNum.num 0
    rw [List.get_of_eq (show buildDrawdown (buildEquity (r0 :: rest)) =
      ddGo JSNum.negInf ((⟨r0.date, JSNum.num 100⟩ : EquityPoint) ::
        (rest.map fun r =>
          (⟨r.date, ((r.nav.div r0.nav).mul (JSNum.num 100)).toFixed2⟩ :
            EquityPoint))) from by unfold buildDrawdown; rw [hEq]) ⟨i, hd2⟩]
    rw [List.get_of_eq (ddGo_negInf_cons r0.date 100 _) _]
    rw [List.get_of_eq hEq ⟨i, hi2⟩] at hv2
    have hgt3 : ∀ e ∈ ((⟨r0.date, JSNum.num 100⟩ : EquityPoint) ::
        (rest.map fun r =>
          (⟨r.date, ((r.nav.div r0.nav).mul (JSNum.num 100)).toFixed2⟩ :
            EquityPoint))).take i, JSNum.gt (JSNum.num v) e.value = true := by
      rw [← hEq]
      exact hgt2
    cases i with
    | zero =>
      simp only [List.get]
      exact dd_point_self_zero 100 (by norm_num)
    | succ i =>
      have hi' : i < (rest.map fun r =>
          (⟨r.date, ((r.nav.div r0.nav).mul (JSNum.num 100)).toFixed2⟩ :
            EquityPoint)).length := by
        have := hi2
        rw [hEq] at this
        simpa using this
      have hv' : ((rest.map fun r =>
          (⟨r.date, ((r.nav.div r0.nav).mul (JSNum.num 100)).toFixed2⟩ :
            EquityPoint)).get ⟨i, hi'⟩).value = JSNum.num v := by
        rw [List.get_cons_succ] at hv2
        exact hv2
      have hgt0 : JSNum.gt (JSNum.num v) (JSNum.num 100) = true := by
        have := hgt3 ⟨r0.date, JSNum.num 100⟩ (by simp [List.take_succ_cons])
        simpa using this
      have h100v : (100 : ℚ) < v := by simpa [JSNum.gt_num_num] using hgt0
      have hgt' : ∀ e ∈ (rest.map fun r =>
          (⟨r.date, ((r.nav.div r0.nav).mul (JSNum.num 100)).toFixed2⟩ :
            EquityPoint)).take i, JSNum.gt (JSNum.num v) e.value = true := by
        intro e he
        exact hgt3 e (by simp [List.take_succ_cons, he])
      have hd' : i < (ddGo (JSNum.num 100) (rest.map fun r =>
          (⟨r.date, ((r.nav.div r0.nav).mul (JSNum.num 100)).toFixed2⟩ :
            EquityPoint))).length := by
        rw [ddGo_length]
        exact hi'
      have hrec := ddGo_zero_at_peak _ 100 (by norm_num) hfin' i hi' v hv'
        hgt' h100v hd'
      rw [List.get_cons_succ]
      exact hrec

/-- C7 witness: in the spec scenario the second point (value 110) strictly
exceeds the first (value 100), and its drawdown is 0. -/
theorem drawdown_zero_at_new_peak_w :
    ((computeSeries specRows).drawdown.get ⟨1, by norm_num [specRows,
      computeSeries, buildDrawdown, buildEquity, ddGo, JSNum.div, JSNum.mul,
      JSNum.sub, JSNum.gt, JSNum.toFixed2, round2]⟩).drawdown = JSNum.num 0 := by
  apply drawdown_zero_at_new_peak specRows (by decide)
    (by norm_num [specRows]) 1
    (by norm_num [specRows, computeSeries, buildEquity, JSNum.div, JSNum.mul,
      JSNum.toFixed2, round2]) 110
  · norm_num [specRows, computeSeries, buildEquity, List.get, JSNum.div,
      JSNum.mul, JSNum.toFixed2, round2]
  · intro e he
    norm_num [specRows, computeSeries, buildEquity, List.take, JSNum.div,
      JSNum.mul, JSNum.toFixed2, round2] at he
    rw [he]
    norm_num [JSNum.gt_num_num]

/-- C7 counterexample: equity values 100, 250, 249.99 — the third point is
strictly below the peak 250 (so not a new-peak point), yet its drawdown rounds
to 0, refuting "drawdown equals 0 only at new-peak points". -/
theorem drawdown_zero_at_new_peak_cex :
    (computeSeries nearPeakRows).equity.map EquityPoint.value =
      [JSNum.num 100, JSNum.num 250, JSNum.num (24999 / 100)] ∧
    (computeSeries nearPeakRows).drawdown.map DrawdownPoint.drawdown =
      [JSNum.num 0, JSNum.num 0, JSNum.num 0] ∧
    ((24999 : ℚ) / 100 < 250) := by
  refine ⟨?_, ?_, by norm_num⟩
  · norm_num [nearPeakRows, computeSeries, buildEquity, JSNum.div, JSNum.mul,
      JSNum.toFixed2, round2]
  · norm_num [nearPeakRows, computeSeries, buildEquity, buildDrawdown, ddGo,
      JSNum.div, JSNum.mul, JSNum.sub, JSNum.gt, JSNum.toFixed2, round2]


/-! ### String-level facts about key rendering, parsing and ordering -/

theorem charListLE_trans : ∀ (a b c : List Char), charListLE a b = true →
    charListLE b c = true → charListLE a c = true
  | [], _, _, _, _ => rfl
  | _ :: _, [], _, h, _ => by cases h
  | _ :: _, _ :: _, [], _, h => by cases h
  | x :: xs, y :: ys, z :: zs, h1, h2 => by
    simp only [charListLE] at h1 h2 ⊢
    by_cases hxy : x.toNat < y.toNat
    · by_cases hyz : y.toNat < z.toNat
      · rw [if_pos (by omega)]
      · rw [if_neg hyz] at h2
        by_cases hzy : z.toNat < y.toNat
        · rw [if_pos hzy] at h2
          cases h2
        · rw [if_neg hzy] at h2
          rw [if_pos (by omega)]
    · rw [if_neg hxy] at h1
      by_cases hyx : y.toNat < x.toNat
      · rw [if_pos hyx] at h1
        cases h1
      · rw [if_neg hyx] at h1
        by_cases hyz : y.toNat < z.toNat
        · rw [if_pos (by omega)]
        · rw [if_neg hyz] at h2
          by_cases hzy : z.toNat < y.toNat
          · rw [if_pos hzy] at h2
            cases h2
          · rw [if_neg hzy] at h2
            rw [if_neg (by omega), if_neg (by omega)]
            exact charListLE_trans xs ys zs h1 h2

theorem charListLE_total : ∀ (a b : List Char),
    charListLE a b || charListLE b a
  | [], _ => by simp [charListLE]
  | _ :: _, [] => by simp [charListLE]
  | x :: xs, y :: ys => by
    simp only [charListLE, Bool.or_eq_true]
    by_cases hxy : x.toNat < y.toNat
    · left
      rw [if_pos hxy]
    · by_cases hyx : y.toNat < x.toNat
      · right
        rw [if_pos hyx]
      · rw [if_neg hxy, if_neg hyx, if_neg hyx, if_neg hxy]
        simpa [Bool.or_eq_true] using charListLE_total xs ys

theorem keyLE_trans (a b c : String) (hab : keyLE a b) (hbc : keyLE b c) :
    keyLE a c :=
  charListLE_trans _ _ _ hab hbc

theorem keyLE_total (a b : String) : keyLE a b || keyLE b a :=
  charListLE_total _ _

theorem charListLE_append_left : ∀ (p a b : List Char),
    charListLE (p ++ a) (p ++ b) = charListLE a b
  | [], _, _ => rfl
  | c :: p, a, b => by
    show (if c.toNat < c.toNat then true else if c.toNat < c.toNat then false
      else charListLE (p ++ a) (p ++ b)) = charListLE a b
    rw [if_neg (lt_irrefl _), if_neg (lt_irrefl _)]
    exact charListLE_append_left p a b

theorem digitChar_toNat : ∀ n, n < 10 → (Nat.digitChar n).toNat = 48 + n := by
  decide

theorem natStrAux_digits : ∀ (fuel n : ℕ), n < fuel →
    ∀ c ∈ natStrAux fuel n, 48 ≤ c.toNat ∧ c.toNat ≤ 57
  | 0, n, h => by omega
  | fuel + 1, n, h => by
    intro c hc
    simp only [natStrAux] at hc
    by_cases h10 : n < 10
    · rw [if_pos h10] at hc
      simp only [List.mem_singleton] at hc
      subst hc
      rw [digitChar_toNat n h10]
      omega
    · rw [if_neg h10] at hc
      rcases List.mem_append.mp hc with hc' | hc'
      · exact natStrAux_digits fuel (n / 10) (by omega) c hc'
      · simp only [List.mem_singleton] at hc'
        subst hc'
        rw [digitChar_toNat (n % 10) (by omega)]
        omega

theorem digitsToNat_append (xs ys : List Char) (acc : ℕ) :
    digitsToNat (xs ++ ys) acc = digitsToNat ys (digitsToNat xs acc) := by
  induction xs generalizing acc with
  | nil => rfl
  | cons c cs ih => simp [digitsToNat, ih]

theorem strToNat_natStrAux : ∀ (fuel n : ℕ), n < fuel →
    digitsToNat (natStrAux fuel n) 0 = n
  | 0, n, h => absurd h (by omega)
  | fuel + 1, n, h => by
    simp only [natStrAux]
    by_cases h10 : n < 10
    · rw [if_pos h10]
      simp [digitsToNat, dval, digitChar_toNat n h10]
    · rw [if_neg h10, digitsToNat_append,
        strToNat_natStrAux fuel (n / 10) (by omega)]
      simp only [digitsToNat, dval, digitChar_toNat (n % 10) (by omega)]
      omega

theorem strToNat_natStr (n : ℕ) : strToNat (natStr n) = n :=
  strToNat_natStrAux (n + 1) n (by omega)

theorem intStr_of_nonneg (y : ℤ) (hy : 0 ≤ y) : intStr y = natStr y.toNat := by
  simp [intStr, not_lt.mpr hy]

theorem intStr_no_dash (y : ℤ) (hy : 0 ≤ y) : '-' ∉ (intStr y).data := by
  intro hmem
  rw [intStr_of_nonneg y hy] at hmem
  have h2 := natStrAux_digits (y.toNat + 1) y.toNat (by omega) '-' hmem
  have h45 : ('-').toNat = 45 := rfl
  omega

theorem strToNat_pad2 : ∀ m, 1 ≤ m → m ≤ 12 → strToNat (pad2 m) = m := by
  decide

theorem pad2_no_dash : ∀ m, 1 ≤ m → m ≤ 12 → '-' ∉ (pad2 m).data := by
  decide

theorem splitDash_no_dash : ∀ (a : List Char), '-' ∉ a → splitDash a = [a]
  | [], _ => rfl
  | c :: cs, h => by
    have hc : ¬ c = '-' := fun hh => h (by simp [hh])
    have hcs : '-' ∉ cs := fun hh => h (List.mem_cons_of_mem _ hh)
    simp only [splitDash, if_neg hc, splitDash_no_dash cs hcs]

theorem splitDash_append (a b : List Char) (ha : '-' ∉ a) :
    splitDash (a ++ '-' :: b) = a :: splitDash b := by
  induction a with
  | nil => simp [splitDash]
  | cons c cs ih =>
    have hc : ¬ c = '-' := fun hh => ha (by simp [hh])
    have hcs : '-' ∉ cs := fun hh => ha (List.mem_cons_of_mem _ hh)
    simp only [List.cons_append, splitDash, if_neg hc]
    rw [show cs.append ('-' :: b) = cs ++ '-' :: b from rfl, ih hcs]

theorem splitKey_rowKey (y : ℤ) (hy : 0 ≤ y) (m : ℕ) (hm1 : 1 ≤ m)
    (hm2 : m ≤ 12) :
    splitKey (intStr y ++ "-" ++ pad2 m) = (intStr y, pad2 m) := by
  have hyd : '-' ∉ (intStr y).data := intStr_no_dash y hy
  have hmd : '-' ∉ (pad2 m).data := pad2_no_dash m hm1 hm2
  unfold splitKey
  rw [String.data_append, String.data_append,
    show ("-" : String).data = ['-'] from rfl,
    show (intStr y).data ++ ['-'] ++ (pad2 m).data =
      (intStr y).data ++ ('-' :: (pad2 m).data) from by simp,
    splitDash_append _ _ hyd, splitDash_no_dash _ hmd]

theorem prevKeyStr_eq_calPrevKey (y : ℤ) (hy : 0 ≤ y) (m : ℕ) (hm1 : 1 ≤ m)
    (hm2 : m ≤ 12) :
    prevKeyStr (intStr y ++ "-" ++ pad2 m) = calPrevKey y m := by
  unfold prevKeyStr calPrevKey
  rw [splitKey_rowKey y hy m hm1 hm2]
  show (if strToNat (pad2 m) = 1 then
      intStr ((strToNat (intStr y) : ℤ) - 1) ++ "-12"
    else intStr y ++ "-" ++ padStart2 (natStr (strToNat (pad2 m) - 1))) = _
  rw [strToNat_pad2 m hm1 hm2]
  have hsy : strToNat (intStr y) = y.toNat := by
    rw [intStr_of_nonneg y hy]
    exact strToNat_natStr y.toNat
  by_cases hm : m = 1
  · rw [if_pos hm, if_pos hm, hsy,
      show ((y.toNat : ℤ) - 1) = y - 1 from by omega]
  · rw [if_neg hm, if_neg hm]
    rfl

/-! ### Month bucketing and the monthly-return matrix -/

theorem lookupBM_upsertBM : ∀ (bm : List (String × JSNum)) (k : String)
    (v : JSNum) (k' : String),
    lookupBM (upsertBM bm k v) k' = if k' = k then some v else lookupBM bm k'
  | [], k, v, k' => by
    simp only [upsertBM, lookupBM]
    by_cases h : k = k'
    · subst h
      simp
    · rw [if_neg h, if_neg (fun hh => h hh.symm)]
  | (k0, v0) :: t, k, v, k' => by
    by_cases h0 : k0 = k
    · subst h0
      simp only [upsertBM, if_pos rfl, lookupBM]
      by_cases h1 : k0 = k'
      · subst h1
        simp
      · rw [if_neg h1, if_neg (fun hh => h1 hh.symm), if_neg h1]
    · simp only [upsertBM, if_neg h0, lookupBM]
      by_cases h1 : k0 = k'
      · subst h1
        rw [if_pos rfl, if_neg (fun hh : k0 = k => h0 hh), if_pos rfl]
      · rw [if_neg h1, if_neg h1, lookupBM_upsertBM t k v k']

theorem byMonthOf_append (rows : List Row) (r : Row) :
    byMonthOf (rows ++ [r]) = upsertBM (byMonthOf rows) (rowKey r) r.nav := by
  unfold byMonthOf
  rw [List.foldl_append]
  rfl

/-- C6: for an ordered (date-sorted) series, the bucket value `byMonth[k]` is
the nav of the last record of that month in chronological order: later records
overwrite earlier ones for the same key. -/
theorem bucket_last_wins (rows : List Row) (k : String)
    (hsorted : rows.Pairwise fun a b => CalDate.le a.date b.date) :
    lookupBM (byMonthOf rows) k =
      ((rows.filter fun r => decide (rowKey r = k)).getLast?).map Row.nav := by
  clear hsorted
  induction rows using List.reverseRecOn with
  | nil => rfl
  | append_singleton l a ih =>
    rw [byMonthOf_append, lookupBM_upsertBM, List.filter_append]
    by_cases hpa : rowKey a = k
    · rw [if_pos hpa.symm]
      simp [List.filter_cons, hpa, List.getLast?_concat]
    · rw [if_neg (fun hh => hpa hh.symm)]
      simpa [List.filter_cons, hpa] using ih

/-- C6 witness: two records in month 2023-05 with navs 100 then 105 leave the
bucket `"2023-05"` holding 105. -/
theorem bucket_last_wins_w :
    lookupBM (byMonthOf dupRows) "2023-05" = some (JSNum.num 105) := by
  rw [bucket_last_wins dupRows "2023-05" (by decide)]
  rfl

theorem keys_upsertBM : ∀ (bm : List (String × JSNum)) (k : String)
    (v : JSNum),
    (upsertBM bm k v).map Prod.fst =
      if k ∈ bm.map Prod.fst then bm.map Prod.fst else bm.map Prod.fst ++ [k]
  | [], k, v => by simp [upsertBM]
  | (k0, v0) :: t, k, v => by
    by_cases h0 : k0 = k
    · subst h0
      simp [upsertBM]
    · simp only [upsertBM, if_neg h0, List.map_cons, keys_upsertBM t k v]
      by_cases hm : k ∈ t.map Prod.fst
      · have hc : k ∈ (k0 :: t.map Prod.fst) := List.mem_cons_of_mem _ hm
        rw [if_pos hm, if_pos hc]
      · have hnotc : k ∉ (k0 :: t.map Prod.fst) := by
          simp only [List.mem_cons, hm, or_false]
          exact fun hh => h0 hh.symm
        rw [if_neg hm, if_neg hnotc]
        simp

theorem nodupKeys_byMonthOf (rows : List Row) :
    ((byMonthOf rows).map Prod.fst).Nodup := by
  suffices h : ∀ (l : List Row) (bm : List (String × JSNum)),
      (bm.map Prod.fst).Nodup →
      (((l.foldl (fun bm r => upsertBM bm (rowKey r) r.nav) bm)).map
        Prod.fst).Nodup from h rows [] (by simp)
  intro l
  induction l with
  | nil => exact fun bm h => h
  | cons r t ih =>
    intro bm h
    simp only [List.foldl_cons]
    apply ih
    rw [keys_upsertBM]
    split_ifs with hm
    · exact h
    · simp [List.nodup_append, h, hm]

theorem mem_keys_byMonthOf_aux : ∀ (l : List Row) (bm : List (String × JSNum))
    (k : String),
    k ∈ ((l.foldl (fun bm r => upsertBM bm (rowKey r) r.nav) bm).map
      Prod.fst) →
    k ∈ bm.map Prod.fst ∨ ∃ r ∈ l, k = rowKey r
  | [], bm, k, h => Or.inl h
  | r :: t, bm, k, h => by
    rcases mem_keys_byMonthOf_aux t _ k h with h' | ⟨r', hr', hk⟩
    · rw [keys_upsertBM] at h'
      split_ifs at h' with hm
      · exact Or.inl h'
      · rcases List.mem_append.mp h' with h'' | h''
        · exact Or.inl h''
        · exact Or.inr ⟨r, by simp, by simpa using h''⟩
    · exact Or.inr ⟨r', List.mem_cons_of_mem _ hr', hk⟩

/-- Every bucket key is the rendered key of some record. -/
theorem mem_keys_byMonthOf (rows : List Row) (k : String)
    (hk : k ∈ (byMonthOf rows).map Prod.fst) : ∃ r ∈ rows, k = rowKey r := by
  rcases mem_keys_byMonthOf_aux rows [] k hk with h | h
  · simp at h
  · exact h

theorem lookupYear_pushYear : ∀ (g : List (String × List MonthlyReturn))
    (y' : String) (e : MonthlyReturn) (y : String),
    lookupYear (pushYear g y' e) y =
      if y = y' then some ((lookupYear g y).getD [] ++ [e]) else lookupYear g y
  | [], y', e, y => by
    simp only [pushYear, lookupYear]
    by_cases h : y' = y
    · subst h
      simp
    · rw [if_neg h, if_neg (fun hh => h hh.symm)]
  | (y0, l) :: t, y', e, y => by
    by_cases h0 : y0 = y'
    · subst h0
      simp only [pushYear, if_pos rfl, lookupYear]
      by_cases h1 : y0 = y
      · subst h1
        simp
      · rw [if_neg h1, if_neg (fun hh => h1 hh.symm), if_neg h1]
    · simp only [pushYear, if_neg h0, lookupYear]
      by_cases h1 : y0 = y
      · subst h1
        rw [if_pos rfl, if_neg (fun hh : y0 = y' => h0 hh), if_pos rfl]
      · rw [if_neg h1, if_neg h1, lookupYear_pushYear t y' e y]

theorem lookupYear_fold (bm : List (String × JSNum)) :
    ∀ (ks : List String) (g : List (String × List MonthlyReturn)) (y : String),
    lookupYear (ks.foldl (fun g k => pushYear g (splitKey k).1 (entryFor bm k))
      g) y =
      match lookupYear g y with
      | some l =>
        some (l ++ (ks.filter fun k => decide ((splitKey k).1 = y)).map
          (entryFor bm))
      | none =>
        if ks.any fun k => decide ((splitKey k).1 = y) then
          some ((ks.filter fun k => decide ((splitKey k).1 = y)).map
            (entryFor bm))
        else none
  | [], g, y => by
    cases h : lookupYear g y <;> simp [h]
  | k :: t, g, y => by
    simp only [List.foldl_cons]
    rw [lookupYear_fold bm t (pushYear g (splitKey k).1 (entryFor bm k)) y,
      lookupYear_pushYear]
    by_cases hky : (splitKey k).1 = y
    · rw [if_pos hky.symm]
      cases h : lookupYear g y with
      | some l => simp [h, hky, List.filter_cons, List.any_cons]
      | none => simp [h, hky, List.filter_cons, List.any_cons]
    · rw [if_neg (fun hh => hky hh.symm)]
      cases h : lookupYear g y with
      | some l => simp [h, hky, List.filter_cons]
      | none => simp [h, hky, List.filter_cons, List.any_cons]

/-- C1 (amended): for every month key with a nonnegative year — the key
`"{y}-{mm}"` of a record with `getFullYear() ≥ 0` — the source's string-level
previous-key computation coincides with the exact immediately-preceding
calendar month key (`"{y-1}-12"` for January, else `"{y}-{mm-1}"`), and the
entry emitted into year group `"{y}"` carries exactly the claimed return:
`(current / preceding - 1) * 100` rounded to 2 decimals when that exact
preceding key holds a truthy positive value, `null` otherwise.  For
negative-year keys the source misparses `k.split("-")` (the year lands in
`mm`) and looks up a different key, so the original unrestricted claim fails;
see the counterexample. -/
theorem monthly_return_exact_prev (rows : List Row) (y : ℤ) (m : ℕ)
    (hy : 0 ≤ y) (hm1 : 1 ≤ m) (hm2 : m ≤ 12)
    (hk : (intStr y ++ "-" ++ pad2 m) ∈ (byMonthOf rows).map Prod.fst) :
    ∃ L, lookupYear (computeSeries rows).monthReturnsByYear (intStr y) =
      some L ∧
      (⟨pad2 m,
        match lookupBM (byMonthOf rows) (calPrevKey y m) with
        | none => none
        | some pv =>
          if pv.truthy && pv.gt (JSNum.num 0) then
            some (((((lookupBM (byMonthOf rows)
              (intStr y ++ "-" ++ pad2 m)).getD JSNum.nan).div pv).sub
              (JSNum.num 1)).mul (JSNum.num 100)).toFixed2
          else none⟩ : MonthlyReturn) ∈ L := by
  cases rows with
  | nil => simp [byMonthOf] at hk
  | cons r0 rest =>
    have hent : entryFor (byMonthOf (r0 :: rest)) (intStr y ++ "-" ++ pad2 m) =
        ⟨pad2 m, match lookupBM (byMonthOf (r0 :: rest)) (calPrevKey y m) with
          | none => none
          | some pv =>
            if pv.truthy && pv.gt (JSNum.num 0) then
              some (((((lookupBM (byMonthOf (r0 :: rest))
                (intStr y ++ "-" ++ pad2 m)).getD JSNum.nan).div pv).sub
                (JSNum.num 1)).mul (JSNum.num 100)).toFixed2
            else none⟩ := by
      unfold entryFor retFor
      rw [prevKeyStr_eq_calPrevKey y hy m hm1 hm2,
        splitKey_rowKey y hy m hm1 hm2]
    rw [computeSeries_cons]
    show ∃ L, lookupYear (buildMonthlyMatrix (r0 :: rest)) (intStr y) =
      some L ∧ _ ∈ L
    simp only [buildMonthlyMatrix]
    rw [lookupYear_fold]
    simp only [lookupYear]
    have hks : (intStr y ++ "-" ++ pad2 m) ∈
        ((byMonthOf (r0 :: rest)).map Prod.fst).mergeSort keyLE := by
      rw [List.mem_mergeSort]
      exact hk
    have hy1 : (splitKey (intStr y ++ "-" ++ pad2 m)).1 = intStr y := by
      rw [splitKey_rowKey y hy m hm1 hm2]
    have hany : (((byMonthOf (r0 :: rest)).map Prod.fst).mergeSort keyLE).any
        (fun k' => decide ((splitKey k').1 = intStr y)) = true := by
      rw [List.any_eq_true]
      exact ⟨_, hks, by simp [hy1]⟩
    rw [if_pos hany]
    refine ⟨_, rfl, ?_⟩
    rw [List.mem_map]
    refine ⟨intStr y ++ "-" ++ pad2 m, ?_, hent⟩
    rw [List.mem_filter]
    exact ⟨hks, by simp [hy1]⟩

/-- C1 witness: with data in 2023-11 and 2024-01 and no 2023-12 bucket, the
entry for 2024-01 is `{month "01", ret null}` even though 2023-11 has data. -/
theorem monthly_return_exact_prev_w :
    ∃ L, lookupYear (computeSeries gapRows).monthReturnsByYear "2024" =
      some L ∧ (⟨"01", none⟩ : MonthlyReturn) ∈ L := by
  have hk : (intStr 2024 ++ "-" ++ pad2 1) ∈ (byMonthOf gapRows).map
      Prod.fst := by decide
  have h := monthly_return_exact_prev gapRows 2024 1 (by omega) (by omega)
    (by omega) hk
  have hEq : (⟨pad2 1,
      match lookupBM (byMonthOf gapRows) (calPrevKey 2024 1) with
      | none => none
      | some pv =>
        if pv.truthy && pv.gt (JSNum.num 0) then
          some (((((lookupBM (byMonthOf gapRows)
            (intStr 2024 ++ "-" ++ pad2 1)).getD JSNum.nan).div pv).sub
            (JSNum.num 1)).mul (JSNum.num 100)).toFixed2
        else none⟩ : MonthlyReturn) = ⟨"01", none⟩ := by decide
  rw [hEq] at h
  exact h

/-- The monthly matrix of `negYearRows` has a single year group, keyed by the
empty string, holding two entries with month string `"5"` and `null` returns:
the split of `"-5-02"` and `"-5-03"` yields `y = ""` and `mm = "5"` for both,
and the derived previous key `"-04"` matches no bucket. -/
theorem negYear_matrix_eval :
    lookupYear (computeSeries negYearRows).monthReturnsByYear "" =
      some [⟨"5", none⟩, ⟨"5", none⟩] := by
  show lookupYear (buildMonthlyMatrix negYearRows) "" = _
  simp only [buildMonthlyMatrix]
  have hms : (["-5-02", "-5-03"] : List String).mergeSort keyLE =
      ["-5-02", "-5-03"] := List.mergeSort_of_sorted (by decide)
  rw [show (byMonthOf negYearRows).map Prod.fst = ["-5-02", "-5-03"] from rfl,
    hms]
  rfl

/-- C1 counterexample: records in months -5-02 (nav 100) and -5-03 (nav 105).
The exact immediately-preceding calendar key of `"-5-03"` is `"-5-02"`, which
is present with a positive truthy value, so the claim demands
`ret = (105/100 - 1)*100` for that bucket; but the source splits `"-5-03"`
into `y = ""`, `mm = "5"`, derives the previous key `"-04"`, finds nothing,
and emits `ret = null` (under year group `""` with month string `"5"`). -/
theorem monthly_return_exact_prev_cex :
    calPrevKey (-5) 3 = "-5-02" ∧
    lookupBM (byMonthOf negYearRows) "-5-02" = some (JSNum.num 100) ∧
    ((JSNum.num 100).truthy && (JSNum.num 100).gt (JSNum.num 0)) = true ∧
    prevKeyStr "-5-03" = "-04" ∧
    lookupYear (computeSeries negYearRows).monthReturnsByYear "" =
      some [⟨"5", none⟩, ⟨"5", none⟩] := by
  refine ⟨rfl, rfl, ?_, rfl, negYear_matrix_eval⟩
  norm_num [JSNum.truthy, JSNum.gt]

theorem pad2_string_lt : ∀ m₁, m₁ < 13 → ∀ m₂, m₂ < 13 →
    charListLE (pad2 m₁).data (pad2 m₂).data = true → ¬ pad2 m₁ = pad2 m₂ →
    (pad2 m₁).toList < (pad2 m₂).toList := by decide

/-- C10 (amended): for every input series all of whose record dates have
nonnegative years, within each year group of the monthly-return mapping the
month strings of the emitted entries are strictly increasing — no calendar
month contributes two entries to the same year's sequence.  With negative
years the source collapses every such key into year group `""` with the month
string equal to the year's digits, and the property fails; see the
counterexample. -/
theorem monthly_months_strictly_increasing (rows : List Row)
    (hy : ∀ r ∈ rows, 0 ≤ r.date.year) (g : String) (L : List MonthlyReturn)
    (hL : lookupYear (computeSeries rows).monthReturnsByYear g = some L) :
    (L.map MonthlyReturn.month).Pairwise (· < ·) := by
  cases rows with
  | nil =>
    rw [computeSeries_nil] at hL
    cases hL
  | cons r0 rest =>
    rw [computeSeries_cons] at hL
    simp only [buildMonthlyMatrix] at hL
    rw [lookupYear_fold] at hL
    simp only [lookupYear] at hL
    by_cases hany : (((byMonthOf (r0 :: rest)).map Prod.fst).mergeSort
        keyLE).any (fun k => decide ((splitKey k).1 = g)) = true
    · rw [if_pos hany] at hL
      injection hL with hL
      subst hL
      rw [List.map_map, List.pairwise_map]
      have hsorted : (((byMonthOf (r0 :: rest)).map Prod.fst).mergeSort
          keyLE).Pairwise (keyLE · ·) :=
        List.sorted_mergeSort keyLE_trans keyLE_total _
      have hnodup : (((byMonthOf (r0 :: rest)).map Prod.fst).mergeSort
          keyLE).Nodup :=
        ((List.mergeSort_perm _ _).nodup_iff).mpr (nodupKeys_byMonthOf _)
      have hcomb := hsorted.and hnodup
      have hsub : List.Sublist ((((byMonthOf (r0 :: rest)).map
          Prod.fst).mergeSort keyLE).filter fun k =>
            decide ((splitKey k).1 = g))
          (((byMonthOf (r0 :: rest)).map Prod.fst).mergeSort keyLE) :=
        List.filter_sublist _
      have hfilt := List.Pairwise.sublist hsub hcomb
      apply hfilt.imp_of_mem
      intro a b ha hb hR
      obtain ⟨hle, hne⟩ := hR
      have hamem : a ∈ (byMonthOf (r0 :: rest)).map Prod.fst :=
        List.mem_mergeSort.mp (List.mem_of_mem_filter ha)
      have hbmem : b ∈ (byMonthOf (r0 :: rest)).map Prod.fst :=
        List.mem_mergeSort.mp (List.mem_of_mem_filter hb)
      obtain ⟨ra, hra, hka⟩ := mem_keys_byMonthOf _ a hamem
      obtain ⟨rb, hrb, hkb⟩ := mem_keys_byMonthOf _ b hbmem
      have hya : 0 ≤ ra.date.year := hy ra hra
      have hyb : 0 ≤ rb.date.year := hy rb hrb
      have hma1 : 1 ≤ ra.date.month0.val + 1 := by omega
      have hma2 : ra.date.month0.val + 1 ≤ 12 := by
        have := ra.date.month0.isLt
        omega
      have hmb1 : 1 ≤ rb.date.month0.val + 1 := by omega
      have hmb2 : rb.date.month0.val + 1 ≤ 12 := by
        have := rb.date.month0.isLt
        omega
      have hsa : splitKey a = (intStr ra.date.year,
          pad2 (ra.date.month0.val + 1)) := by
        rw [hka]
        exact splitKey_rowKey _ hya _ hma1 hma2
      have hsb : splitKey b = (intStr rb.date.year,
          pad2 (rb.date.month0.val + 1)) := by
        rw [hkb]
        exact splitKey_rowKey _ hyb _ hmb1 hmb2
      have hga : intStr ra.date.year = g := by
        have := (List.mem_filter.mp ha).2
        rw [hsa] at this
        simpa using this
      have hgb : intStr rb.date.year = g := by
        have := (List.mem_filter.mp hb).2
        rw [hsb] at this
        simpa using this
      have h1 : a = (g ++ "-") ++ pad2 (ra.date.month0.val + 1) := by
        rw [hka]
        show intStr ra.date.year ++ "-" ++ pad2 (ra.date.month0.val + 1) = _
        rw [hga]
      have h2 : b = (g ++ "-") ++ pad2 (rb.date.month0.val + 1) := by
        rw [hkb]
        show intStr rb.date.year ++ "-" ++ pad2 (rb.date.month0.val + 1) = _
        rw [hgb]
      have hcl : charListLE (pad2 (ra.date.month0.val + 1)).data
          (pad2 (rb.date.month0.val + 1)).data = true := by
        have hle' := hle
        rw [h1, h2] at hle'
        simp only [keyLE, String.data_append] at hle'
        rw [charListLE_append_left] at hle'
        exact hle'
      have hmne : ¬ pad2 (ra.date.month0.val + 1) =
          pad2 (rb.date.month0.val + 1) := by
        intro hp
        apply hne
        rw [h1, h2, hp]
      show (entryFor (byMonthOf (r0 :: rest)) a).month <
        (entryFor (byMonthOf (r0 :: rest)) b).month
      show (splitKey a).2 < (splitKey b).2
      rw [hsa, hsb]
      show pad2 (ra.date.month0.val + 1) < pad2 (rb.date.month0.val + 1)
      rw [String.lt_iff_toList_lt]
      exact pad2_string_lt _ (by omega) _ (by omega) hcl hmne
    · rw [if_neg hany] at hL
      cases hL

/-- C10 counterexample: records in months -5-03 and -5-07 of year -5 would
behave the same; here -5-02 and -5-03 already show it: both keys split to
`y = ""`, `mm = "5"`, so year group `""` holds the month string `"5"` twice —
not strictly increasing. -/
theorem monthly_months_strictly_increasing_cex :
    lookupYear (computeSeries negYearRows).monthReturnsByYear "" =
      some [⟨"5", none⟩, ⟨"5", none⟩] ∧
    ¬ ((([(⟨"5", none⟩ : MonthlyReturn), ⟨"5", none⟩]).map
      MonthlyReturn.month).Pairwise (· < ·)) := by
  refine ⟨negYear_matrix_eval, ?_⟩
  intro h
  have h5 := (List.pairwise_cons.mp h).1 "5" (by simp)
  exact lt_irrefl _ h5

/-- The 2023 group of the monthly matrix of `gapRows`: one entry for
November, with a `null` return (no 2023-10 bucket). -/
def gapL : List MonthlyReturn := [⟨"11", none⟩]

/-- C10 witness: the dates of `gapRows` all have nonnegative years, the
year-2023 group exists, and its month strings are strictly increasing. -/
theorem monthly_months_strictly_increasing_w :
    (∀ r ∈ gapRows, 0 ≤ r.date.year) ∧
    lookupYear (computeSeries gapRows).monthReturnsByYear "2023" =
      some gapL ∧
    (gapL.map MonthlyReturn.month).Pairwise (· < ·) := by
  have h : lookupYear (computeSeries gapRows).monthReturnsByYear "2023" =
      some gapL := by
    show lookupYear (buildMonthlyMatrix gapRows) "2023" = _
    simp only [buildMonthlyMatrix]
    have hms : (["2023-11", "2024-01"] : List String).mergeSort keyLE =
        ["2023-11", "2024-01"] := List.mergeSort_of_sorted (by decide)
    rw [show (byMonthOf gapRows).map Prod.fst = ["2023-11", "2024-01"]
      from rfl, hms]
    rfl
  exact ⟨by decide, h,
    monthly_months_strictly_increasing gapRows (by decide) "2023" gapL h⟩
